import Mathlib

/-!
Verification development for the mongox asynchronous task layer
(src/async.go, src/client.go, src/errors.go).

The shallow embedding below translates the pure decision logic of the
source: error classification (`HandleRetryError`), queue-key and
task-name resolution in `AsyncCollection.push`, `AsyncDatabase.WithTask`
and `AsyncDatabase.WithTransaction`, the `QueueCollection` delegation
layer, and the construction of the scheduler options in
`Client.AsyncDatabase`.  The gorder scheduler itself
(github.com/maxbolgarin/gorder) is an external dependency whose source
is not part of this repository; its retry loop and key-partitioned FIFO
dispatcher are modelled from the specification where a claim needs them
(each such definition is marked "Modelled from the spec").
-/

namespace Mongox

/-- Sentinel error values relevant to the async layer, each created by a
distinct `errors.New` call in errors.go (`ErrNotFound`, `ErrDuplicate`,
`ErrInvalidArgument`, `ErrBadValue`, `ErrIndexNotFound`,
`ErrFailedToParse`, `ErrTypeMismatch`, `ErrIllegalOperation`,
`ErrNetwork`, `ErrTimeout`, `ErrInternal`, `ErrBadServer`); `other`
stands for any further distinct error value (mongo server codes,
driver errors, ad-hoc errors). -/
inductive Sentinel where
  | errNotFound
  | errDuplicate
  | errInvalidArgument
  | errBadValue
  | errIndexNotFound
  | errFailedToParse
  | errTypeMismatch
  | errIllegalOperation
  | errNetwork
  | errTimeout
  | errInternal
  | errBadServer
  | other (name : String)
deriving DecidableEq, Repr

/-- Go error values as used in this code base: either a sentinel created
by `errors.New`, or a wrapping error created by `fmt.Errorf` with the
`%w` verb around an inner error (the message part does not participate
in `errors.Is`). -/
inductive GoErr where
  | base (s : Sentinel)
  | wrap (msg : String) (inner : GoErr)
deriving DecidableEq, Repr

/-- Embedding of Go `errors.Is(err, target)` for a sentinel target:
walk the unwrap chain and compare each link with the target value
(sentinels made by `errors.New` compare by identity). -/
def errorsIs : GoErr → Sentinel → Bool
  | .base s, t => s == t
  | .wrap _ e, t => errorsIs e t

/-- One structured log call `log.Error(msg, "error", err, "collection",
collection, "task", task, "flow", flow)` as issued by
`AsyncCollection.HandleRetryError` in src/async.go. -/
structure LogEntry where
  msg : String
  err : GoErr
  collection : String
  task : String
  flow : String
deriving DecidableEq, Repr

/-- Result of running an error handler: the error value returned to the
queue (`none` is Go `nil`) together with the log entries emitted. -/
structure HandleResult where
  ret : Option GoErr
  logs : List LogEntry
deriving DecidableEq, Repr

/-- Embedding of `AsyncCollection.HandleRetryError` (src/async.go lines
255-285).  `collName` is `ac.coll.coll.Name()`.  The three terminal
branches swallow the error (return `nil`) and log; the default branch
returns the error unchanged so the queue retries it. -/
def HandleRetryError (collName : String) (err : Option GoErr) (taskName : String) : HandleResult :=
  match err with
  | none => ⟨none, []⟩
  | some e =>
    if errorsIs e .errNotFound then
      ⟨none, [⟨"document not found", e, collName, taskName, "async"⟩]⟩
    else if errorsIs e .errDuplicate then
      ⟨none, [⟨"duplicate", e, collName, taskName, "async"⟩]⟩
    else if errorsIs e .errInvalidArgument || errorsIs e .errBadValue ||
        errorsIs e .errIndexNotFound || errorsIs e .errFailedToParse ||
        errorsIs e .errTypeMismatch || errorsIs e .errIllegalOperation then
      ⟨none, [⟨"invalid argument", e, collName, taskName, "async"⟩]⟩
    else
      ⟨some e, []⟩

/-- The eight terminal error categories named by the specification:
not-found, duplicate, invalid-argument, bad-value, index-not-found,
failed-to-parse, type-mismatch, illegal-operation. -/
def terminalSentinels : List Sentinel :=
  [.errNotFound, .errDuplicate, .errInvalidArgument, .errBadValue,
   .errIndexNotFound, .errFailedToParse, .errTypeMismatch, .errIllegalOperation]

/-- An error wraps one of the eight terminal categories. -/
def wrapsTerminal (e : GoErr) : Bool :=
  terminalSentinels.any (fun s => errorsIs e s)

/-- A task body as seen through the shallow embedding: the error the
underlying database call returns on each successive invocation
(invocations are numbered from 0; `none` is success). -/
def TaskBody : Type := Nat → Option GoErr

/-- A task handed to `queue.Push`: the resolved queue key, the resolved
task name, and the closure pushed to the queue (returning the error the
scheduler sees plus emitted log entries, per invocation). -/
structure PushedTask where
  queueKey : String
  taskName : String
  body : Nat → HandleResult

/-- Embedding of `AsyncCollection.push` (src/async.go lines 243-253):
an empty queue key is replaced by the collection name, an empty task
name by `collection_opName`, and the pushed closure wraps the operation
with `HandleRetryError` under the resolved task name. -/
def AsyncCollection.push (collName queueKey taskName opName : String) (f : TaskBody) : PushedTask :=
  let qk := if queueKey = "" then collName else queueKey
  let tn := if taskName = "" then collName ++ "_" ++ opName else taskName
  ⟨qk, tn, fun n => HandleRetryError collName (f n) tn⟩

/-- Embedding of `AsyncDatabase.WithTask` (src/async.go lines 76-86):
an empty queue key is replaced by the database name, an empty task name
by `database_task`, and the pushed closure calls `fn` directly — it
does not pass the returned error through `HandleRetryError` and emits
no log of its own. -/
def AsyncDatabase.WithTask (dbName queueKey taskName : String) (fn : TaskBody) : PushedTask :=
  let qk := if queueKey = "" then dbName else queueKey
  let tn := if taskName = "" then dbName ++ "_task" else taskName
  ⟨qk, tn, fun n => ⟨fn n, []⟩⟩

/-- Embedding of `AsyncDatabase.WithTransaction` (src/async.go lines
58-71): an empty queue key is replaced by the database name, an empty
task name by `database_transaction`; the pushed closure runs `fn`
inside `Database.WithTransaction` and returns its error unfiltered
(the session machinery of database.go is treated as the transparent
success path; no `HandleRetryError` is applied). -/
def AsyncDatabase.WithTransaction (dbName queueKey taskName : String) (fn : TaskBody) : PushedTask :=
  let qk := if queueKey = "" then dbName else queueKey
  let tn := if taskName = "" then dbName ++ "_transaction" else taskName
  ⟨qk, tn, fun n => ⟨fn n, []⟩⟩

/-- Maximum number of retries for failed tasks in async mode
(src/async.go line 13). -/
def DefaultAsyncRetries : Nat := 10

/-- The subset of `gorder.Options` set by `Client.AsyncDatabase`
(src/client.go lines 134-138); the struct itself belongs to the external
gorder package. -/
structure GorderOptions where
  workers : Int
  retries : Nat
deriving DecidableEq, Repr

/-- Embedding of the options value `Client.AsyncDatabase` passes to
`gorder.New` (src/client.go lines 123-148): the caller-supplied worker
count and `Retries: DefaultAsyncRetries`. -/
def Client.asyncDatabaseOptions (workers : Int) : GorderOptions :=
  ⟨workers, DefaultAsyncRetries⟩

section Operations

/- Abstract argument types of the collection operations: documents,
filter/update maps (mongox.M), and bulk write models.  The database
calls themselves (src/collection.go) are opaque task bodies; each
`...Body` variable stands for the closure the corresponding
AsyncCollection method builds around `ac.coll`. -/
variable {Doc Flt Mdl : Type}

variable (insertBody : List Doc → TaskBody)
variable (insertManyBody : List Doc → TaskBody)
variable (upsertBody : Doc → Flt → TaskBody)
variable (replaceOneBody : Doc → Flt → TaskBody)
variable (setFieldsBody : Flt → Flt → TaskBody)
variable (updateOneBody : Flt → Flt → TaskBody)
variable (updateManyBody : Flt → Flt → TaskBody)
variable (updateOneFromDiffBody : Flt → Doc → TaskBody)
variable (deleteFieldsBody : Flt → List String → TaskBody)
variable (deleteOneBody : Flt → TaskBody)
variable (deleteManyBody : Flt → TaskBody)
variable (bulkWriteBody : List Mdl → Bool → TaskBody)

/-- Embedding of `AsyncCollection.Insert` (src/async.go line 101). -/
def AsyncCollection.Insert (collName queueKey taskName : String) (records : List Doc) : PushedTask :=
  AsyncCollection.push collName queueKey taskName "insert" (insertBody records)

/-- Embedding of `AsyncCollection.InsertMany` (src/async.go line 112). -/
def AsyncCollection.InsertMany (collName queueKey taskName : String) (records : List Doc) : PushedTask :=
  AsyncCollection.push collName queueKey taskName "insert_many" (insertManyBody records)

/-- Embedding of `AsyncCollection.Upsert` (src/async.go line 123). -/
def AsyncCollection.Upsert (collName queueKey taskName : String) (record : Doc) (filter : Flt) : PushedTask :=
  AsyncCollection.push collName queueKey taskName "upsert" (upsertBody record filter)

/-- Embedding of `AsyncCollection.ReplaceOne` (src/async.go line 134). -/
def AsyncCollection.ReplaceOne (collName queueKey taskName : String) (record : Doc) (filter : Flt) : PushedTask :=
  AsyncCollection.push collName queueKey taskName "replace" (replaceOneBody record filter)

/-- Embedding of `AsyncCollection.SetFields` (src/async.go line 145). -/
def AsyncCollection.SetFields (collName queueKey taskName : String) (filter update : Flt) : PushedTask :=
  AsyncCollection.push collName queueKey taskName "set_fields" (setFieldsBody filter update)

/-- Embedding of `AsyncCollection.UpdateOne` (src/async.go line 158). -/
def AsyncCollection.UpdateOne (collName queueKey taskName : String) (filter update : Flt) : PushedTask :=
  AsyncCollection.push collName queueKey taskName "update_one" (updateOneBody filter update)

/-- Embedding of `AsyncCollection.UpdateMany` (src/async.go line 171). -/
def AsyncCollection.UpdateMany (collName queueKey taskName : String) (filter update : Flt) : PushedTask :=
  AsyncCollection.push collName queueKey taskName "update_many" (updateManyBody filter update)

/-- Embedding of `AsyncCollection.UpdateOneFromDiff` (src/async.go line 192). -/
def AsyncCollection.UpdateOneFromDiff (collName queueKey taskName : String) (filter : Flt) (diff : Doc) : PushedTask :=
  AsyncCollection.push collName queueKey taskName "update_from_diff" (updateOneFromDiffBody filter diff)

/-- Embedding of `AsyncCollection.DeleteFields` (src/async.go line 203). -/
def AsyncCollection.DeleteFields (collName queueKey taskName : String) (filter : Flt) (fields : List String) : PushedTask :=
  AsyncCollection.push collName queueKey taskName "delete_fields" (deleteFieldsBody filter fields)

/-- Embedding of `AsyncCollection.DeleteOne` (src/async.go line 213). -/
def AsyncCollection.DeleteOne (collName queueKey taskName : String) (filter : Flt) : PushedTask :=
  AsyncCollection.push collName queueKey taskName "delete_one" (deleteOneBody filter)

/-- Embedding of `AsyncCollection.DeleteMany` (src/async.go line 223). -/
def AsyncCollection.DeleteMany (collName queueKey taskName : String) (filter : Flt) : PushedTask :=
  AsyncCollection.push collName queueKey taskName "delete_many" (deleteManyBody filter)

/-- Embedding of `AsyncCollection.BulkWrite` (src/async.go line 236). -/
def AsyncCollection.BulkWrite (collName queueKey taskName : String) (models : List Mdl) (isOrdered : Bool) : PushedTask :=
  AsyncCollection.push collName queueKey taskName "bulk_write" (bulkWriteBody models isOrdered)

/-- Embedding of `QueueCollection` (src/async.go lines 287-291): the
embedded AsyncCollection is represented by its collection name, plus
the bound queue key `name`. -/
structure QueueCollection where
  collName : String
  name : String
deriving DecidableEq, Repr

/-- Embedding of `QueueCollection.Insert` (src/async.go line 306). -/
def QueueCollection.Insert (qc : QueueCollection) (records : List Doc) : PushedTask :=
  AsyncCollection.Insert insertBody qc.collName qc.name "" records

/-- Embedding of `QueueCollection.InsertMany` (src/async.go line 313). -/
def QueueCollection.InsertMany (qc : QueueCollection) (records : List Doc) : PushedTask :=
  AsyncCollection.InsertMany insertManyBody qc.collName qc.name "" records

/-- Embedding of `QueueCollection.Upsert` (src/async.go line 320). -/
def QueueCollection.Upsert (qc : QueueCollection) (record : Doc) (filter : Flt) : PushedTask :=
  AsyncCollection.Upsert upsertBody qc.collName qc.name "" record filter

/-- Embedding of `QueueCollection.ReplaceOne` (src/async.go line 327). -/
def QueueCollection.ReplaceOne (qc : QueueCollection) (record : Doc) (filter : Flt) : PushedTask :=
  AsyncCollection.ReplaceOne replaceOneBody qc.collName qc.name "" record filter

/-- Embedding of `QueueCollection.SetFields` (src/async.go line 335). -/
def QueueCollection.SetFields (qc : QueueCollection) (filter update : Flt) : PushedTask :=
  AsyncCollection.SetFields setFieldsBody qc.collName qc.name "" filter update

/-- Embedding of `QueueCollection.UpdateOne` (src/async.go line 345). -/
def QueueCollection.UpdateOne (qc : QueueCollection) (filter update : Flt) : PushedTask :=
  AsyncCollection.UpdateOne updateOneBody qc.collName qc.name "" filter update

/-- Embedding of `QueueCollection.UpdateMany` (src/async.go line 355). -/
def QueueCollection.UpdateMany (qc : QueueCollection) (filter update : Flt) : PushedTask :=
  AsyncCollection.UpdateMany updateManyBody qc.collName qc.name "" filter update

/-- Embedding of `QueueCollection.UpdateOneFromDiff` (src/async.go line 372). -/
def QueueCollection.UpdateOneFromDiff (qc : QueueCollection) (filter : Flt) (diff : Doc) : PushedTask :=
  AsyncCollection.UpdateOneFromDiff updateOneFromDiffBody qc.collName qc.name "" filter diff

/-- Embedding of `QueueCollection.DeleteFields` (src/async.go line 380). -/
def QueueCollection.DeleteFields (qc : QueueCollection) (filter : Flt) (fields : List String) : PushedTask :=
  AsyncCollection.DeleteFields deleteFieldsBody qc.collName qc.name "" filter fields

/-- Embedding of `QueueCollection.DeleteOne` (src/async.go line 387). -/
def QueueCollection.DeleteOne (qc : QueueCollection) (filter : Flt) : PushedTask :=
  AsyncCollection.DeleteOne deleteOneBody qc.collName qc.name "" filter

/-- Embedding of `QueueCollection.DeleteMany` (src/async.go line 394). -/
def QueueCollection.DeleteMany (qc : QueueCollection) (filter : Flt) : PushedTask :=
  AsyncCollection.DeleteMany deleteManyBody qc.collName qc.name "" filter

/-- Embedding of `QueueCollection.BulkWrite` (src/async.go line 404). -/
def QueueCollection.BulkWrite (qc : QueueCollection) (models : List Mdl) (isOrdered : Bool) : PushedTask :=
  AsyncCollection.BulkWrite bulkWriteBody qc.collName qc.name "" models isOrdered

end Operations

/-- Modelled from the spec: the gorder retry loop (spec sections 4.3 and
8, property 4 — "a task is retried up to `DefaultAsyncRetries` (10)
additional attempts after the first failure; after the limit is
exhausted, the task is dropped").  `invocationsFrom body budget n`
counts how many times the pushed closure runs, starting at invocation
number `n` with `budget` retries left: a `nil` return stops the loop,
a non-nil return consumes one retry while the budget lasts. -/
def invocationsFrom (body : Nat → HandleResult) : Nat → Nat → Nat
  | 0, _ => 1
  | b + 1, n =>
    match (body n).ret with
    | none => 1
    | some _ => 1 + invocationsFrom body b (n + 1)

/-- Modelled from the spec: total number of invocations of a pushed
task under a retry budget (first attempt plus retries). -/
def taskInvocations (t : PushedTask) (retries : Nat) : Nat :=
  invocationsFrom t.body retries 0

/-- Final fate of a task at the scheduler: the last invocation returned
`nil` (succeeded — terminal errors swallowed by `HandleRetryError`
also end here) or the retry budget ran out on a non-nil error
(dropped). -/
inductive TaskFate where
  | succeeded
  | dropped
deriving DecidableEq, Repr

/-- Modelled from the spec: outcome of the gorder retry loop (spec
section 4.4 task state machine — `Succeeded` and `Dropped` are the
terminal states). -/
def fateFrom (body : Nat → HandleResult) : Nat → Nat → TaskFate
  | 0, n =>
    match (body n).ret with
    | none => .succeeded
    | some _ => .dropped
  | b + 1, n =>
    match (body n).ret with
    | none => .succeeded
    | some _ => fateFrom body b (n + 1)

/-- Modelled from the spec: the fate of a pushed task under a retry
budget. -/
def taskFate (t : PushedTask) (retries : Nat) : TaskFate :=
  fateFrom t.body retries 0

/-- Observable scheduler events: a task (identified by the identity of
its pushed closure, encoded as a natural number) begins execution, or
completes (succeeds or is finally dropped). -/
inductive Ev where
  | started (id : Nat)
  | finished (id : Nat)
deriving DecidableEq, Repr

/-- Modelled from the spec: the state of the gorder scheduler (spec
sections 3 and 4.2) — per-key FIFO pending queues, the task currently
owned by the worker claiming each key (at most one per key), and the
trace of begin/complete events observed so far. -/
structure Sched where
  pending : String → List Nat
  running : String → Option Nat
  trace : List Ev

/-- Modelled from the spec: `Push(key, task)` appends the task to the
queue identified by the key, creating it if absent (spec section 4.1). -/
def Sched.pushTask (s : Sched) (k : String) (x : Nat) : Sched :=
  { s with pending := Function.update s.pending k (s.pending k ++ [x]) }

/-- A task identifier is fresh for a state: it occurs in no pending
queue, is not running anywhere, and has produced no event yet.  Pushed
closures are distinct objects, so every push uses a fresh identifier. -/
def Sched.Fresh (s : Sched) (x : Nat) : Prop :=
  (∀ k, x ∉ s.pending k ∧ s.running k ≠ some x) ∧
    Ev.started x ∉ s.trace ∧ Ev.finished x ∉ s.trace

/-- Modelled from the spec: one scheduler transition (spec sections 4.2,
4.3 and 5).  A worker may claim the head task of any unclaimed queue
(`claim`), finish the task it owns (`finish` — success, or final drop
after the retry budget), re-enqueue the task it owns at the head of its
queue for a later retry attempt (`retryRequeue`, the delayed re-queue
of spec section 5), or a caller may push a fresh task (`pushStep`).
Any number of distinct keys may be active at once; a bounded worker
pool only restricts which of these schedules occur, so properties of
all schedules hold for every pool size. -/
inductive SchedStep : Sched → Sched → Prop where
  | claim (s : Sched) (k : String) (t : Nat) (rest : List Nat)
      (hrun : s.running k = none) (hpend : s.pending k = t :: rest) :
      SchedStep s ⟨Function.update s.pending k rest,
        Function.update s.running k (some t), s.trace ++ [.started t]⟩
  | finish (s : Sched) (k : String) (t : Nat)
      (hrun : s.running k = some t) :
      SchedStep s ⟨s.pending, Function.update s.running k none,
        s.trace ++ [.finished t]⟩
  | retryRequeue (s : Sched) (k : String) (t : Nat)
      (hrun : s.running k = some t) :
      SchedStep s ⟨Function.update s.pending k (t :: s.pending k),
        Function.update s.running k none, s.trace⟩
  | pushStep (s : Sched) (k : String) (x : Nat) (hfresh : s.Fresh x) :
      SchedStep s (s.pushTask k x)

/-- Reachability by scheduler transitions. -/
def SchedReaches : Sched → Sched → Prop :=
  Relation.ReflTransGen SchedStep

/-- Embedding of the async-collection cache entry of
`AsyncDatabase.AsyncCollection` (src/async.go lines 42-46): an
AsyncCollection handle carries its collection name and the identity of
the gorder queue instance it pushes to (`queue: m.queue` — instances
are modelled by numeric identity). -/
structure ACHandle where
  collName : String
  queueId : Nat
deriving DecidableEq, Repr

/-- Embedding of the `AsyncDatabase` state relevant to queue sharing
(src/async.go lines 17-24): the database name, the identity of its
single gorder queue, and the `colls` cache. -/
structure ADB where
  dbName : String
  queueId : Nat
  colls : List (String × ACHandle)
deriving DecidableEq, Repr

/-- Embedding of `Client.AsyncDatabase` constructing a fresh
AsyncDatabase (src/client.go lines 132-141): a newly created gorder
queue instance and an empty collection cache. -/
def Client.asyncDatabase (name : String) (freshQueueId : Nat) : ADB :=
  ⟨name, freshQueueId, []⟩

/-- Embedding of `AsyncDatabase.AsyncCollection` (src/async.go lines
33-53): return the cached handle for the name if present, otherwise
create a handle sharing the database's queue (`queue: m.queue`) and
cache it. -/
def ADB.asyncCollection (m : ADB) (name : String) : ACHandle × ADB :=
  match m.colls.find? (fun p => p.1 == name) with
  | some p => (p.2, m)
  | none =>
    let c : ACHandle := ⟨name, m.queueId⟩
    (c, { m with colls := m.colls ++ [(name, c)] })

/-- Run a sequence of `AsyncCollection(name)` calls against an
AsyncDatabase, returning the final state. -/
def ADB.afterCalls (m : ADB) : List String → ADB
  | [] => m
  | n :: ns => ((m.asyncCollection n).2).afterCalls ns

/-- Partition a push lands in: the queue instance it enters and the
resolved queue key inside that instance (spec sections 3 and 4.1 — one
FIFO partition per key per scheduler instance). -/
def ACHandle.pushPartition (c : ACHandle) (queueKey : String) : Nat × String :=
  (c.queueId, if queueKey = "" then c.collName else queueKey)

/-- Every cached collection handle shares the queue instance of its
AsyncDatabase — the invariant `AsyncDatabase.AsyncCollection` maintains
(it only ever stores handles built with `queue: m.queue`). -/
def ADB.CollsShareQueue (m : ADB) : Prop :=
  ∀ p ∈ m.colls, p.2.queueId = m.queueId

/-- Collect the handles returned by a sequence of `AsyncCollection(name)`
calls against an AsyncDatabase. -/
def ADB.handles (m : ADB) : List String → List ACHandle
  | [] => []
  | n :: ns => (m.asyncCollection n).1 :: ((m.asyncCollection n).2).handles ns

/-- Embedding of a `QueueCollection` value built by
`AsyncCollection.QueueCollection` (src/async.go lines 294-296): it
embeds the AsyncCollection handle unchanged and binds a queue key. -/
structure QCHandle where
  ac : ACHandle
  name : String
deriving DecidableEq, Repr

/-- Embedding of `AsyncCollection.QueueCollection` on handles. -/
def ACHandle.mkQueueCollection (c : ACHandle) (n : String) : QCHandle :=
  ⟨c, n⟩

/-- Partition a QueueCollection push lands in: its operations push with
the bound key (src/async.go lines 306-405). -/
def QCHandle.pushPartition (q : QCHandle) : Nat × String :=
  q.ac.pushPartition q.name

/-- All raw strings carried by an error value: wrap messages and names
of ad-hoc sentinels. -/
def GoErr.strings : GoErr → List String
  | .base (.other n) => [n]
  | .base _ => []
  | .wrap m e => m :: e.strings

/-- All raw strings a log entry carries: its message, the structured
field values, and the strings of the logged error. -/
def LogEntry.strings (l : LogEntry) : List String :=
  l.msg :: l.collection :: l.task :: l.flow :: l.err.strings

/-- Tasks `a` and `b` occur nowhere outside key `K`: they are not
pending and not running under any other key. -/
def OffTrack (K : String) (a b : Nat) (s : Sched) : Prop :=
  ∀ k, k ≠ K → a ∉ s.pending k ∧ b ∉ s.pending k ∧
    s.running k ≠ some a ∧ s.running k ≠ some b

/-- Phase 1 of the FIFO invariant: both tasks are in the pending list
of their key, `a` strictly before `b`, each occurring exactly once;
neither one is the task running under the key. -/
def PhaseBothPending (a b : Nat) (pend : List Nat) (run : Option Nat) (tr : List Ev) : Prop :=
  ∃ l r₁ r₂, pend = l ++ a :: r₁ ++ b :: r₂ ∧
    a ∉ l ∧ a ∉ r₁ ∧ a ∉ r₂ ∧ b ∉ l ∧ b ∉ r₁ ∧ b ∉ r₂ ∧
    run ≠ some a ∧ run ≠ some b ∧ Ev.started b ∉ tr

/-- Phase 2 of the FIFO invariant: `a` is running under the key, `b`
still pending behind it. -/
def PhaseARunning (a b : Nat) (pend : List Nat) (run : Option Nat) (tr : List Ev) : Prop :=
  run = some a ∧
    (∃ r₁ r₂, pend = r₁ ++ b :: r₂ ∧ a ∉ r₁ ∧ a ∉ r₂ ∧ b ∉ r₁ ∧ b ∉ r₂) ∧
    Ev.started a ∈ tr ∧ Ev.started b ∉ tr

/-- Phase 3 of the FIFO invariant: `a` has completed, `b` is still
pending and not yet started. -/
def PhaseADone (a b : Nat) (pend : List Nat) (run : Option Nat) (tr : List Ev) : Prop :=
  Ev.started a ∈ tr ∧ Ev.finished a ∈ tr ∧
    (∃ r₁ r₂, pend = r₁ ++ b :: r₂ ∧ a ∉ r₁ ∧ a ∉ r₂ ∧ b ∉ r₁ ∧ b ∉ r₂) ∧
    run ≠ some a ∧ run ≠ some b ∧ Ev.started b ∉ tr

/-- Phase 4 of the FIFO invariant: `b` has begun, and at the point it
began, `a` had already started and completed. -/
def PhaseBStarted (a b : Nat) (tr : List Ev) : Prop :=
  ∃ u v, tr = u ++ Ev.started b :: v ∧ Ev.started a ∈ u ∧ Ev.finished a ∈ u

/-- Disjunction of the four phases for one key's pending list, running
slot and the global trace. -/
def KeyPhase (a b : Nat) (pend : List Nat) (run : Option Nat) (tr : List Ev) : Prop :=
  PhaseBothPending a b pend run tr ∨ PhaseARunning a b pend run tr ∨
    PhaseADone a b pend run tr ∨ PhaseBStarted a b tr

/-- Inductive invariant establishing per-key FIFO between two tasks
pushed to key `K` in order `a` then `b`. -/
def FifoInv (K : String) (a b : Nat) (s : Sched) : Prop :=
  OffTrack K a b s ∧ KeyPhase a b (s.pending K) (s.running K) s.trace

/-- Characterisation of the error returned by `HandleRetryError` on a
non-nil input: swallowed exactly when the error wraps a terminal
category, passed through unchanged otherwise. -/
theorem handleRetryError_ret (c tn : String) (e : GoErr) :
    (HandleRetryError c (some e) tn).ret = if wrapsTerminal e then none else some e := by
  unfold HandleRetryError wrapsTerminal terminalSentinels
  simp only [List.any_cons, List.any_nil, Bool.or_false]
  split_ifs <;> simp_all

/-- A string of the form `c_op` is never empty. -/
theorem append_underscore_ne_empty (c op : String) : c ++ "_" ++ op ≠ "" := by
  intro h
  have hlen := congrArg String.length h
  simp [String.length_append] at hlen
  exact absurd hlen.1.2 (by decide)

/-- A body that fails on every invocation is invoked once per unit of
retry budget plus once, and ends dropped. -/
theorem invocationsFrom_of_always_some (body : Nat → HandleResult)
    (h : ∀ n, (body n).ret ≠ none) :
    ∀ budget n, invocationsFrom body budget n = budget + 1
      ∧ fateFrom body budget n = .dropped := by
  intro budget
  induction budget with
  | zero =>
    intro n
    cases hb : (body n).ret with
    | none => exact absurd hb (h n)
    | some e => exact ⟨rfl, by simp [fateFrom, hb]⟩
  | succ b ih =>
    intro n
    cases hb : (body n).ret with
    | none => exact absurd hb (h n)
    | some e =>
      refine ⟨?_, ?_⟩
      · simp only [invocationsFrom, hb, (ih (n + 1)).1]
        omega
      · simp only [fateFrom, hb, (ih (n + 1)).2]

/-- The handle returned by `AsyncDatabase.AsyncCollection` carries the
database's queue, given the cache invariant. -/
theorem asyncCollection_handle_queueId (m : ADB) (h : m.CollsShareQueue) (n : String) :
    ((m.asyncCollection n).1).queueId = m.queueId := by
  unfold ADB.asyncCollection
  cases hl : m.colls.find? (fun p => p.1 == n) with
  | none => rfl
  | some p =>
    simp only
    exact h p (List.mem_of_find?_eq_some hl)

/-- One `AsyncCollection` call keeps the queue identity and the cache
invariant. -/
theorem asyncCollection_state (m : ADB) (h : m.CollsShareQueue) (n : String) :
    ((m.asyncCollection n).2).queueId = m.queueId
      ∧ ((m.asyncCollection n).2).CollsShareQueue := by
  unfold ADB.asyncCollection
  cases hl : m.colls.find? (fun p => p.1 == n) with
  | none =>
    refine ⟨rfl, ?_⟩
    intro p hp
    simp only [List.mem_append, List.mem_singleton] at hp
    rcases hp with hp | hp
    · exact h p hp
    · rw [hp]
  | some p => exact ⟨rfl, h⟩

/-- Every handle produced along a sequence of `AsyncCollection` calls
shares the database's queue. -/
theorem handles_queueId (m : ADB) (h : m.CollsShareQueue) (names : List String) :
    ∀ c ∈ m.handles names, c.queueId = m.queueId := by
  induction names generalizing m with
  | nil => intro c hc; simp [ADB.handles] at hc
  | cons n ns ih =>
    intro c hc
    simp only [ADB.handles, List.mem_cons] at hc
    rcases hc with hc | hc
    · rw [hc]; exact asyncCollection_handle_queueId m h n
    · obtain ⟨hq, hinv⟩ := asyncCollection_state m h n
      rw [← hq]
      exact ih _ hinv c hc

/-- Appending a non-begin-of-b event to the trace preserves the phase
disjunction. -/
theorem keyPhase_extend_trace (a b : Nat) (pend : List Nat) (run : Option Nat)
    (tr : List Ev) (e : Ev) (he : e ≠ .started b) :
    KeyPhase a b pend run tr → KeyPhase a b pend run (tr ++ [e]) := by
  intro h
  have hnb : ∀ tr' : List Ev, Ev.started b ∉ tr' → Ev.started b ∉ tr' ++ [e] := by
    intro tr' hn hmem
    rcases List.mem_append.1 hmem with h1 | h1
    · exact hn h1
    · exact he (List.mem_singleton.1 h1).symm
  rcases h with ⟨l, r₁, r₂, hp, c1, c2, c3, c4, c5, c6, c7, c8, c9⟩ | ⟨h1, h2, h3, h4⟩
    | ⟨h1, h2, h3, h4, h5, h6⟩ | ⟨u, v, hs, h1, h2⟩
  · exact Or.inl ⟨l, r₁, r₂, hp, c1, c2, c3, c4, c5, c6, c7, c8, hnb _ c9⟩
  · exact Or.inr (Or.inl ⟨h1, h2, List.mem_append_left _ h3, hnb _ h4⟩)
  · exact Or.inr (Or.inr (Or.inl ⟨List.mem_append_left _ h1, List.mem_append_left _ h2,
      h3, h4, h5, hnb _ h6⟩))
  · exact Or.inr (Or.inr (Or.inr ⟨u, v ++ [e], by rw [hs]; simp, h1, h2⟩))

/-- Appending a fresh task to the key's pending list preserves the
phase disjunction. -/
theorem keyPhase_append_pending (a b : Nat) (pend : List Nat) (run : Option Nat)
    (tr : List Ev) (x : Nat) (hxa : x ≠ a) (hxb : x ≠ b) :
    KeyPhase a b pend run tr → KeyPhase a b (pend ++ [x]) run tr := by
  intro h
  have hnx : ∀ r : List Nat, ∀ y, y ∉ r → y ≠ x → y ∉ r ++ [x] := by
    intro r y hy hyx hmem
    rcases List.mem_append.1 hmem with h1 | h1
    · exact hy h1
    · exact hyx (List.mem_singleton.1 h1)
  rcases h with ⟨l, r₁, r₂, hp, c1, c2, c3, c4, c5, c6, c7, c8, c9⟩
    | ⟨h1, ⟨r₁, r₂, hp, c1, c2, c3, c4⟩, h3, h4⟩
    | ⟨h1, h2, ⟨r₁, r₂, hp, c1, c2, c3, c4⟩, h4, h5, h6⟩ | h
  · refine Or.inl ⟨l, r₁, r₂ ++ [x], ?_, c1, c2, hnx _ _ c3 (fun h => hxa h.symm),
      c4, c5, hnx _ _ c6 (fun h => hxb h.symm), c7, c8, c9⟩
    rw [hp]; simp
  · refine Or.inr (Or.inl ⟨h1, ⟨r₁, r₂ ++ [x], ?_, c1, hnx _ _ c2 (fun h => hxa h.symm),
      c3, hnx _ _ c4 (fun h => hxb h.symm)⟩, h3, h4⟩)
    rw [hp]; simp
  · refine Or.inr (Or.inr (Or.inl ⟨h1, h2, ⟨r₁, r₂ ++ [x], ?_, c1,
      hnx _ _ c2 (fun h => hxa h.symm), c3, hnx _ _ c4 (fun h => hxb h.symm)⟩, h4, h5, h6⟩))
    rw [hp]; simp
  · exact Or.inr (Or.inr (Or.inr h))

/-- A task absent from the key's pending list and from the trace is
neither `a` nor `b`, in every phase. -/
theorem keyPhase_ne_fresh (a b : Nat) (pend : List Nat) (run : Option Nat)
    (tr : List Ev) (x : Nat) (hp : x ∉ pend) (ht : Ev.started x ∉ tr)
    (h : KeyPhase a b pend run tr) : x ≠ a ∧ x ≠ b := by
  rcases h with ⟨l, r₁, r₂, hpd, _⟩ | ⟨_, ⟨r₁, r₂, hpd, _⟩, hsa, _⟩
    | ⟨hsa, _, ⟨r₁, r₂, hpd, _⟩, _⟩ | ⟨u, v, hs, hsa, _⟩
  · constructor
    · rintro rfl
      exact hp (by rw [hpd]; simp)
    · rintro rfl
      exact hp (by rw [hpd]; simp)
  · constructor
    · rintro rfl
      exact ht hsa
    · rintro rfl
      exact hp (by rw [hpd]; simp)
  · constructor
    · rintro rfl
      exact ht hsa
    · rintro rfl
      exact hp (by rw [hpd]; simp)
  · constructor
    · rintro rfl
      exact ht (by rw [hs]; exact List.mem_append_left _ hsa)
    · rintro rfl
      exact ht (by rw [hs]; exact List.mem_append_right _ (List.mem_cons_self _ _))

/-- Claiming the head of the key's queue advances the phase. -/
theorem keyPhase_claim (a b : Nat) (hab : a ≠ b) (t : Nat) (rest : List Nat)
    (tr : List Ev) (h : KeyPhase a b (t :: rest) none tr) :
    KeyPhase a b rest (some t) (tr ++ [.started t]) := by
  rcases h with ⟨l, r₁, r₂, hp, c1, c2, c3, c4, c5, c6, c7, c8, c9⟩
    | ⟨h1, _⟩
    | ⟨h1, h2, ⟨r₁, r₂, hp, c1, c2, c3, c4⟩, h4, h5, h6⟩ | h
  · cases l with
    | nil =>
      simp only [List.nil_append, List.cons.injEq] at hp
      obtain ⟨rfl, rfl⟩ := hp
      refine Or.inr (Or.inl ⟨rfl, ⟨r₁, r₂, rfl, c2, c3, c5, c6⟩, ?_, ?_⟩)
      · exact List.mem_append_right _ (List.mem_cons_self _ _)
      · intro hmem
        simp only [List.mem_append, List.mem_singleton] at hmem
        rcases hmem with h1 | h1
        · exact c9 h1
        · injection h1 with h2
          exact hab h2.symm
    | cons y l' =>
      simp only [List.cons_append, List.cons.injEq] at hp
      obtain ⟨rfl, rfl⟩ := hp
      have hta : t ≠ a := fun h => c1 (h ▸ List.mem_cons_self _ _)
      have htb : t ≠ b := fun h => c4 (h ▸ List.mem_cons_self _ _)
      refine Or.inl ⟨l', r₁, r₂, rfl, fun h => c1 (List.mem_cons_of_mem _ h),
        c2, c3, fun h => c4 (List.mem_cons_of_mem _ h), c5, c6,
        fun h => hta (Option.some.inj h), fun h => htb (Option.some.inj h), ?_⟩
      intro hmem
      simp only [List.mem_append, List.mem_singleton] at hmem
      rcases hmem with h1 | h1
      · exact c9 h1
      · injection h1 with h2
        exact htb h2.symm
  · exact absurd h1 (by simp)
  · cases r₁ with
    | nil =>
      simp only [List.nil_append, List.cons.injEq] at hp
      obtain ⟨rfl, rfl⟩ := hp
      exact Or.inr (Or.inr (Or.inr ⟨tr, [], rfl, h1, h2⟩))
    | cons y r₁' =>
      simp only [List.cons_append, List.cons.injEq] at hp
      obtain ⟨rfl, rfl⟩ := hp
      have hta : t ≠ a := fun h => c1 (h ▸ List.mem_cons_self _ _)
      have htb : t ≠ b := fun h => c3 (h ▸ List.mem_cons_self _ _)
      refine Or.inr (Or.inr (Or.inl ⟨List.mem_append_left _ h1, List.mem_append_left _ h2,
        ⟨r₁', r₂, rfl, fun h => c1 (List.mem_cons_of_mem _ h), c2,
          fun h => c3 (List.mem_cons_of_mem _ h), c4⟩,
        fun h => hta (Option.some.inj h), fun h => htb (Option.some.inj h), ?_⟩))
      intro hmem
      simp only [List.mem_append, List.mem_singleton] at hmem
      rcases hmem with h1 | h1
      · exact h6 h1
      · injection h1 with h2
        exact htb h2.symm
  · exact Or.inr (Or.inr (Or.inr (by
      obtain ⟨u, v, hs, hu1, hu2⟩ := h
      exact ⟨u, v ++ [.started t], by rw [hs]; simp, hu1, hu2⟩)))

/-- Finishing the running task of the key advances the phase. -/
theorem keyPhase_finish (a b : Nat) (t : Nat) (pend : List Nat)
    (tr : List Ev) (h : KeyPhase a b pend (some t) tr) :
    KeyPhase a b pend none (tr ++ [.finished t]) := by
  have hnb : ∀ tr' : List Ev, Ev.started b ∉ tr' → Ev.started b ∉ tr' ++ [.finished t] := by
    intro tr' hn hmem
    simp only [List.mem_append, List.mem_singleton] at hmem
    rcases hmem with h1 | h1
    · exact hn h1
    · exact absurd h1 (by simp)
  rcases h with ⟨l, r₁, r₂, hp, c1, c2, c3, c4, c5, c6, c7, c8, c9⟩
    | ⟨h1, h2, h3, h4⟩
    | ⟨h1, h2, h3, h4, h5, h6⟩ | h
  · exact Or.inl ⟨l, r₁, r₂, hp, c1, c2, c3, c4, c5, c6, by simp, by simp, hnb _ c9⟩
  · have hta : t = a := Option.some.inj h1
    subst hta
    exact Or.inr (Or.inr (Or.inl ⟨List.mem_append_left _ h3,
      List.mem_append_right _ (List.mem_cons_self _ _), h2, by simp, by simp, hnb _ h4⟩))
  · exact Or.inr (Or.inr (Or.inl ⟨List.mem_append_left _ h1, List.mem_append_left _ h2,
      h3, by simp, by simp, hnb _ h6⟩))
  · exact Or.inr (Or.inr (Or.inr (by
      obtain ⟨u, v, hs, hu1, hu2⟩ := h
      exact ⟨u, v ++ [.finished t], by rw [hs]; simp, hu1, hu2⟩)))

/-- Re-enqueuing the running task at the head of its queue for a retry
preserves the phase disjunction. -/
theorem keyPhase_retry (a b : Nat) (t : Nat) (pend : List Nat)
    (tr : List Ev) (h : KeyPhase a b pend (some t) tr) :
    KeyPhase a b (t :: pend) none tr := by
  rcases h with ⟨l, r₁, r₂, hp, c1, c2, c3, c4, c5, c6, c7, c8, c9⟩
    | ⟨h1, ⟨r₁, r₂, hp, c1, c2, c3, c4⟩, h3, h4⟩
    | ⟨h1, h2, ⟨r₁, r₂, hp, c1, c2, c3, c4⟩, h4, h5, h6⟩ | h
  · have hta : t ≠ a := fun h => c7 (by rw [h])
    have htb : t ≠ b := fun h => c8 (by rw [h])
    refine Or.inl ⟨t :: l, r₁, r₂, by rw [hp]; rfl, ?_, c2, c3, ?_, c5, c6, by simp,
      by simp, c9⟩
    · intro hm
      rcases List.mem_cons.1 hm with h1 | h1
      · exact hta h1.symm
      · exact c1 h1
    · intro hm
      rcases List.mem_cons.1 hm with h1 | h1
      · exact htb h1.symm
      · exact c4 h1
  · have hta : t = a := Option.some.inj h1
    subst hta
    exact Or.inl ⟨[], r₁, r₂, by rw [hp]; rfl, by simp, c1, c2, by simp, c3, c4,
      by simp, by simp, h4⟩
  · have hta : t ≠ a := fun h => h4 (by rw [h])
    have htb : t ≠ b := fun h => h5 (by rw [h])
    refine Or.inr (Or.inr (Or.inl ⟨h1, h2, ⟨t :: r₁, r₂, by rw [hp]; rfl, ?_, c2, ?_, c4⟩,
      by simp, by simp, h6⟩))
    · intro hm
      rcases List.mem_cons.1 hm with h1 | h1
      · exact hta h1.symm
      · exact c1 h1
    · intro hm
      rcases List.mem_cons.1 hm with h1 | h1
      · exact htb h1.symm
      · exact c3 h1
  · exact Or.inr (Or.inr (Or.inr h))

/-- Claiming a queue head preserves the off-track side condition. -/
theorem offTrack_claim (K : String) (a b : Nat) (s : Sched) (k : String) (t : Nat)
    (rest : List Nat) (hoff : OffTrack K a b s) (hpend : s.pending k = t :: rest) :
    OffTrack K a b ⟨Function.update s.pending k rest,
      Function.update s.running k (some t), s.trace ++ [.started t]⟩ := by
  intro k' hk'
  obtain ⟨h1, h2, h3, h4⟩ := hoff k' hk'
  by_cases hkk : k' = k
  · subst hkk
    have hta : t ≠ a := fun h => h1 (by rw [hpend]; exact h ▸ List.mem_cons_self t rest)
    have htb : t ≠ b := fun h => h2 (by rw [hpend]; exact h ▸ List.mem_cons_self t rest)
    refine ⟨?_, ?_, ?_, ?_⟩ <;> simp [Function.update_same]
    · intro h; exact h1 (by rw [hpend]; exact List.mem_cons_of_mem t h)
    · intro h; exact h2 (by rw [hpend]; exact List.mem_cons_of_mem t h)
    · exact fun h => hta h
    · exact fun h => htb h
  · simp [Function.update_noteq hkk]
    exact ⟨h1, h2, fun h => h3 (by rw [h]), fun h => h4 (by rw [h])⟩

/-- Finishing a running task preserves the off-track side condition. -/
theorem offTrack_finish (K : String) (a b : Nat) (s : Sched) (k : String)
    (tr' : List Ev) (hoff : OffTrack K a b s) :
    OffTrack K a b ⟨s.pending, Function.update s.running k none, tr'⟩ := by
  intro k' hk'
  obtain ⟨h1, h2, h3, h4⟩ := hoff k' hk'
  by_cases hkk : k' = k
  · subst hkk
    simp [Function.update_same]
    exact ⟨h1, h2⟩
  · simp [Function.update_noteq hkk]
    exact ⟨h1, h2, fun h => h3 (by rw [h]), fun h => h4 (by rw [h])⟩

/-- Re-enqueuing a running task preserves the off-track side
condition. -/
theorem offTrack_retry (K : String) (a b : Nat) (s : Sched) (k : String) (t : Nat)
    (hoff : OffTrack K a b s) (hrun : s.running k = some t) :
    OffTrack K a b ⟨Function.update s.pending k (t :: s.pending k),
      Function.update s.running k none, s.trace⟩ := by
  intro k' hk'
  obtain ⟨h1, h2, h3, h4⟩ := hoff k' hk'
  by_cases hkk : k' = k
  · subst hkk
    have hta : t ≠ a := fun h => h3 (by rw [hrun, h])
    have htb : t ≠ b := fun h => h4 (by rw [hrun, h])
    simp [Function.update_same]
    refine ⟨⟨fun h => hta h.symm, h1⟩, ⟨fun h => htb h.symm, h2⟩⟩
  · simp [Function.update_noteq hkk]
    exact ⟨h1, h2, fun h => h3 (by rw [h]), fun h => h4 (by rw [h])⟩

/-- Pushing a task that is neither `a` nor `b` preserves the off-track
side condition. -/
theorem offTrack_push (K : String) (a b : Nat) (s : Sched) (k : String) (x : Nat)
    (hxa : x ≠ a) (hxb : x ≠ b) (hoff : OffTrack K a b s) :
    OffTrack K a b (s.pushTask k x) := by
  intro k' hk'
  obtain ⟨h1, h2, h3, h4⟩ := hoff k' hk'
  unfold Sched.pushTask
  by_cases hkk : k' = k
  · subst hkk
    simp only [Function.update_same]
    refine ⟨?_, ?_, h3, h4⟩
    · intro hm
      rcases List.mem_append.1 hm with h | h
      · exact h1 h
      · exact hxa (List.mem_singleton.1 h).symm
    · intro hm
      rcases List.mem_append.1 hm with h | h
      · exact h2 h
      · exact hxb (List.mem_singleton.1 h).symm
  · simp only [Function.update_noteq hkk]
    exact ⟨h1, h2, h3, h4⟩

/-- Every scheduler transition preserves the FIFO invariant. -/
theorem fifoInv_step (K : String) (a b : Nat) (hab : a ≠ b) (s s' : Sched)
    (hstep : SchedStep s s') (hinv : FifoInv K a b s) : FifoInv K a b s' := by
  obtain ⟨hoff, hph⟩ := hinv
  cases hstep with
  | claim k t rest hrun hpend =>
    refine ⟨offTrack_claim K a b s k t rest hoff hpend, ?_⟩
    by_cases hk : k = K
    · subst hk
      simp only [Function.update_same]
      rw [hpend, hrun] at hph
      exact keyPhase_claim a b hab t rest s.trace hph
    · have hK : K ≠ k := fun h => hk h.symm
      simp only [Function.update_noteq hK]
      have htb : t ≠ b := fun h =>
        (hoff k hk).2.1 (by rw [hpend]; exact h ▸ List.mem_cons_self t rest)
      exact keyPhase_extend_trace a b _ _ _ _ (by simp [htb]) hph
  | finish k t hrun =>
    refine ⟨offTrack_finish K a b s k _ hoff, ?_⟩
    by_cases hk : k = K
    · subst hk
      simp only [Function.update_same]
      rw [hrun] at hph
      exact keyPhase_finish a b t _ _ hph
    · have hK : K ≠ k := fun h => hk h.symm
      simp only [Function.update_noteq hK]
      exact keyPhase_extend_trace a b _ _ _ _ (by simp) hph
  | retryRequeue k t hrun =>
    refine ⟨offTrack_retry K a b s k t hoff hrun, ?_⟩
    by_cases hk : k = K
    · subst hk
      simp only [Function.update_same]
      rw [hrun] at hph
      exact keyPhase_retry a b t _ _ hph
    · have hK : K ≠ k := fun h => hk h.symm
      simp only [Function.update_noteq hK]
      exact hph
  | pushStep k x hfresh =>
    obtain ⟨hxa, hxb⟩ := keyPhase_ne_fresh a b _ _ _ x ((hfresh.1 K).1) hfresh.2.1 hph
    refine ⟨offTrack_push K a b s k x hxa hxb hoff, ?_⟩
    unfold Sched.pushTask
    by_cases hk : k = K
    · subst hk
      simp only [Function.update_same]
      exact keyPhase_append_pending a b _ _ _ x hxa hxb hph
    · have hK : K ≠ k := fun h => hk h.symm
      simp only [Function.update_noteq hK]
      exact hph

/-- The FIFO invariant holds along every reachable execution. -/
theorem fifoInv_reaches (K : String) (a b : Nat) (hab : a ≠ b) (s s' : Sched)
    (hinv : FifoInv K a b s) (h : SchedReaches s s') : FifoInv K a b s' := by
  induction h with
  | refl => exact hinv
  | tail _ hstep ih => exact fifoInv_step K a b hab _ _ hstep ih

/-- Two fresh tasks pushed to the same key in order serialize: in every
reachable continuation, whenever the second begins, the first has
already begun and completed. -/
theorem sched_two_pushes_fifo (s0 : Sched) (K : String) (a b : Nat)
    (ha : s0.Fresh a) (hb : (s0.pushTask K a).Fresh b)
    (s' : Sched) (hreach : SchedReaches ((s0.pushTask K a).pushTask K b) s')
    (hstart : Ev.started b ∈ s'.trace) :
    ∃ u v, s'.trace = u ++ Ev.started b :: v ∧ Ev.started a ∈ u ∧ Ev.finished a ∈ u := by
  have hab : a ≠ b := by
    intro h
    exact (hb.1 K).1 (by unfold Sched.pushTask; simp [Function.update_same, h])
  have hbp : b ∉ s0.pending K := by
    intro h
    exact (hb.1 K).1 (by unfold Sched.pushTask; simp [Function.update_same]; exact Or.inl h)
  have hinv0 : FifoInv K a b ((s0.pushTask K a).pushTask K b) := by
    constructor
    · intro k hk
      have hK : k ≠ K := hk
      unfold Sched.pushTask
      simp only [Function.update_noteq hK]
      have hbk : b ∉ s0.pending k := by
        intro h
        exact (hb.1 k).1 (by unfold Sched.pushTask; simp [Function.update_noteq hK]; exact h)
      exact ⟨(ha.1 k).1, hbk, (ha.1 k).2, (hb.1 k).2⟩
    · left
      refine ⟨s0.pending K, [], [], ?_, (ha.1 K).1, by simp, by simp, hbp, by simp, by simp,
        (ha.1 K).2, (hb.1 K).2, hb.2.1⟩
      unfold Sched.pushTask
      simp [Function.update_same]
  have hinv := fifoInv_reaches K a b hab _ _ hinv0 hreach
  obtain ⟨_, hph⟩ := hinv
  rcases hph with ⟨l, r₁, r₂, hp, c1, c2, c3, c4, c5, c6, c7, c8, c9⟩
    | ⟨_, _, _, h4⟩ | ⟨_, _, _, _, _, h6⟩ | ⟨u, v, hs, h1, h2⟩
  · exact absurd hstart c9
  · exact absurd hstart h4
  · exact absurd hstart h6
  · exact ⟨u, v, hs, h1, h2⟩

/-- C1: for every non-nil error and every task name,
`AsyncCollection.HandleRetryError` returns nil exactly when the error
wraps one of the eight terminal categories (not-found, duplicate,
invalid-argument, bad-value, index-not-found, failed-to-parse,
type-mismatch, illegal-operation); every other non-nil error is
returned unchanged, and a nil input is returned as nil. -/
theorem handleRetryError_terminal_classification (c tn : String) (e : GoErr) :
    ((HandleRetryError c (some e) tn).ret = none ↔ wrapsTerminal e = true)
      ∧ (HandleRetryError c (some e) tn).ret
          = (if wrapsTerminal e then none else some e)
      ∧ (HandleRetryError c none tn).ret = none := by
  refine ⟨?_, handleRetryError_ret c tn e, rfl⟩
  rw [handleRetryError_ret]
  cases h : wrapsTerminal e <;> simp

/-- C2 counterexample: a task submitted through
`AsyncDatabase.WithTask` whose body always returns the terminal error
`ErrNotFound` is invoked `1 + DefaultAsyncRetries = 11` times, not
once: `WithTask` does not route errors through `HandleRetryError`, so
the scheduler retries the terminal error like any other. -/
theorem withTask_terminal_error_retried :
    taskInvocations (AsyncDatabase.WithTask "mydb" "key" "task"
        (fun _ => some (.base .errNotFound))) DefaultAsyncRetries = 11
      ∧ (11 : Nat) ≠ 1 := ⟨rfl, by decide⟩

/-- C2 amended: a task submitted through the `AsyncCollection`
operations (which all go through `push` and wrap their body with
`HandleRetryError`) whose body always returns a classified terminal
error is invoked exactly once, for every retry budget. -/
theorem push_terminal_error_invoked_once (c qk tn op : String) (f : TaskBody)
    (h : ∀ n, ∃ e, f n = some e ∧ wrapsTerminal e = true) (retries : Nat) :
    taskInvocations (AsyncCollection.push c qk tn op f) retries = 1 := by
  obtain ⟨e, he, ht⟩ := h 0
  have hret : ((AsyncCollection.push c qk tn op f).body 0).ret = none := by
    show (HandleRetryError c (f 0) _).ret = none
    rw [he, handleRetryError_ret, ht]
    rfl
  unfold taskInvocations
  cases retries with
  | zero => rfl
  | succ b => simp [invocationsFrom, hret]

/-- C2 witness: concrete instance of the amended claim, with a body
always returning the terminal error `ErrDuplicate`. -/
theorem push_terminal_error_invoked_once_witness :
    (∀ n : Nat, ∃ e, (fun _ => some (GoErr.base .errDuplicate) : TaskBody) n = some e
        ∧ wrapsTerminal e = true)
      ∧ taskInvocations (AsyncCollection.push "users" "q" "t" "insert"
          (fun _ => some (.base .errDuplicate))) DefaultAsyncRetries = 1 :=
  ⟨fun _ => ⟨.base .errDuplicate, rfl, rfl⟩,
    push_terminal_error_invoked_once "users" "q" "t" "insert" _
      (fun _ => ⟨.base .errDuplicate, rfl, rfl⟩) DefaultAsyncRetries⟩

/-- C3: a task whose body always returns a retryable (non-terminal)
error is invoked exactly `1 + DefaultAsyncRetries = 11` times under the
retry limit `Client.AsyncDatabase` configures, is then dropped, and
that configured limit is exactly `DefaultAsyncRetries = 10`. -/
theorem transient_error_retry_budget (workers : Int) (c qk tn op : String) (f : TaskBody)
    (h : ∀ n, ∃ e, f n = some e ∧ wrapsTerminal e = false) :
    taskInvocations (AsyncCollection.push c qk tn op f)
        (Client.asyncDatabaseOptions workers).retries = 1 + DefaultAsyncRetries
      ∧ 1 + DefaultAsyncRetries = 11
      ∧ taskFate (AsyncCollection.push c qk tn op f)
          (Client.asyncDatabaseOptions workers).retries = .dropped
      ∧ (Client.asyncDatabaseOptions workers).retries = DefaultAsyncRetries
      ∧ DefaultAsyncRetries = 10 := by
  have hb : ∀ n, ((AsyncCollection.push c qk tn op f).body n).ret ≠ none := by
    intro n
    obtain ⟨e, he, ht⟩ := h n
    show (HandleRetryError c (f n) _).ret ≠ none
    rw [he, handleRetryError_ret, ht]
    simp
  have hmain := invocationsFrom_of_always_some _ hb DefaultAsyncRetries 0
  exact ⟨hmain.1.trans (by omega), by decide, hmain.2, rfl, rfl⟩

/-- C3 witness: concrete instance with a body always returning the
retryable error `ErrNetwork`. -/
theorem transient_error_retry_budget_witness :
    (∀ n : Nat, ∃ e, (fun _ => some (GoErr.base .errNetwork) : TaskBody) n = some e
        ∧ wrapsTerminal e = false)
      ∧ taskInvocations (AsyncCollection.push "users" "q" "t" "insert"
          (fun _ => some (.base .errNetwork)))
          (Client.asyncDatabaseOptions 4).retries = 1 + DefaultAsyncRetries :=
  ⟨fun _ => ⟨.base .errNetwork, rfl, rfl⟩,
    (transient_error_retry_budget 4 "users" "q" "t" "insert" _
      (fun _ => ⟨.base .errNetwork, rfl, rfl⟩)).1⟩

/-- C4: for every queue key `K` and tasks `a` then `b` pushed to `K`
in that order (both fresh task objects), in every reachable scheduler
execution, whenever `b` begins, `a` has already begun and completed —
per-key strict FIFO, for every worker pool size of at least one (the
step relation allows every schedule any pool can produce, including
retries of earlier tasks and concurrent pushes to other keys). -/
theorem per_key_fifo_ordering (s0 : Sched) (K : String) (a b : Nat)
    (ha : s0.Fresh a) (hb : (s0.pushTask K a).Fresh b)
    (s' : Sched) (hreach : SchedReaches ((s0.pushTask K a).pushTask K b) s')
    (hstart : Ev.started b ∈ s'.trace) :
    ∃ u v, s'.trace = u ++ Ev.started b :: v ∧ Ev.started a ∈ u ∧ Ev.finished a ∈ u :=
  sched_two_pushes_fifo s0 K a b ha hb s' hreach hstart

/-- C4 witness: a concrete three-step execution (claim `0`, finish `0`,
claim `1`) of two tasks pushed to key `k` of the empty scheduler
produces the trace `[started 0, finished 0, started 1]`, in which task
`0` begins and completes before task `1` begins. -/
theorem per_key_fifo_ordering_witness :
    (⟨fun _ => [], fun _ => none, []⟩ : Sched).Fresh 0
      ∧ ((⟨fun _ => [], fun _ => none, []⟩ : Sched).pushTask "k" 0).Fresh 1
      ∧ ∃ u v, ([Ev.started 0, Ev.finished 0, Ev.started 1] : List Ev)
          = u ++ Ev.started 1 :: v ∧ Ev.started 0 ∈ u ∧ Ev.finished 0 ∈ u := by
  have hf0 : (⟨fun _ => [], fun _ => none, []⟩ : Sched).Fresh 0 := by
    refine ⟨fun k => ⟨by simp, by simp⟩, by simp, by simp⟩
  have hf1 : ((⟨fun _ => [], fun _ => none, []⟩ : Sched).pushTask "k" 0).Fresh 1 := by
    refine ⟨fun k => ⟨?_, by simp [Sched.pushTask]⟩, by simp [Sched.pushTask],
      by simp [Sched.pushTask]⟩
    by_cases h : k = "k"
    · subst h
      simp [Sched.pushTask, Function.update_same]
    · simp [Sched.pushTask, Function.update_noteq h]
  have hreach := Relation.ReflTransGen.tail (Relation.ReflTransGen.tail
    (Relation.ReflTransGen.tail (Relation.ReflTransGen.refl)
      (SchedStep.claim
        (((⟨fun _ => [], fun _ => none, []⟩ : Sched).pushTask "k" 0).pushTask "k" 1)
        "k" 0 [1] rfl (by simp [Sched.pushTask, Function.update_same])))
    (SchedStep.finish _ "k" 0 (by simp [Function.update_same])))
    (SchedStep.claim _ "k" 1 [] (by simp [Function.update_same])
      (by simp [Function.update_same]))
  exact ⟨hf0, hf1,
    per_key_fifo_ordering _ "k" 0 1 hf0 hf1 _ hreach (by simp [Sched.pushTask])⟩

/-- C5: an async submission with an empty queue key is routed to a
deterministic context-derived default partition: the collection name
for `AsyncCollection` operations, the database name for
`AsyncDatabase.WithTask` and `AsyncDatabase.WithTransaction`. -/
theorem empty_queue_key_defaults (collName dbName taskName opName : String) (f fn : TaskBody) :
    (AsyncCollection.push collName "" taskName opName f).queueKey = collName
      ∧ (AsyncDatabase.WithTask dbName "" taskName fn).queueKey = dbName
      ∧ (AsyncDatabase.WithTransaction dbName "" taskName fn).queueKey = dbName :=
  ⟨rfl, rfl, rfl⟩

/-- C6 counterexample: through the async facade an empty key does not
form its own partition — a push with key `""` on collection `users`
and a push with the non-empty key `users` resolve to the same queue
key, so they land in the same partition. -/
theorem empty_key_shares_collection_partition :
    (AsyncCollection.push "users" "" "t" "insert" (fun _ => none)).queueKey
        = (AsyncCollection.push "users" "users" "t" "insert" (fun _ => none)).queueKey
      ∧ ("users" : String) ≠ "" := ⟨rfl, by decide⟩

/-- C6 amended: an empty queue key is accepted but replaced by the
collection name before reaching the queue, so an unkeyed push shares
the partition of pushes keyed explicitly by the collection name and is
distinct from every partition whose key differs from the collection
name. -/
theorem empty_key_partition_after_substitution (c qk tn tn' op op' : String)
    (f g : TaskBody) (h1 : qk ≠ "") (h2 : qk ≠ c) :
    (AsyncCollection.push c "" tn op f).queueKey = c
      ∧ (AsyncCollection.push c "" tn op f).queueKey
          ≠ (AsyncCollection.push c qk tn' op' g).queueKey
      ∧ (AsyncCollection.push c c tn op f).queueKey
          = (AsyncCollection.push c "" tn' op' g).queueKey := by
  refine ⟨rfl, ?_, ?_⟩
  · show c ≠ (if qk = "" then c else qk)
    rw [if_neg h1]
    exact fun hc => h2 hc.symm
  · show (if c = "" then c else c) = (if ("" : String) = "" then c else "")
    simp

/-- C6 witness: concrete instance of the amended claim with collection
`users` and the distinct non-empty key `orders`. -/
theorem empty_key_partition_after_substitution_witness :
    ("orders" : String) ≠ "" ∧ ("orders" : String) ≠ "users"
      ∧ (AsyncCollection.push "users" "" "t" "insert" (fun _ => none)).queueKey
          ≠ (AsyncCollection.push "users" "orders" "t" "insert" (fun _ => none)).queueKey :=
  ⟨by decide, by decide,
    (empty_key_partition_after_substitution "users" "orders" "t" "t" "insert" "insert"
      (fun _ => none) (fun _ => none) (by decide) (by decide)).2.1⟩

/-- C7 counterexample: a terminal drop is logged without the queue key.
A task pushed under queue key `orders-q7` on collection `users` that
fails with `ErrNotFound` is dropped (the wrapped body returns nil) and
produces exactly one log entry whose strings (message, collection,
task, flow, error text) nowhere contain the queue key. -/
theorem terminal_drop_log_lacks_queue_key :
    ((AsyncCollection.push "users" "orders-q7" "" "insert"
        (fun _ => some (.base .errNotFound))).body 0).ret = none
      ∧ ((AsyncCollection.push "users" "orders-q7" "" "insert"
          (fun _ => some (.base .errNotFound))).body 0).logs
          = [⟨"document not found", .base .errNotFound, "users", "users_insert", "async"⟩]
      ∧ (AsyncCollection.push "users" "orders-q7" "" "insert"
          (fun _ => some (.base .errNotFound))).queueKey = "orders-q7"
      ∧ ∀ entry ∈ ((AsyncCollection.push "users" "orders-q7" "" "insert"
          (fun _ => some (.base .errNotFound))).body 0).logs,
          "orders-q7" ∉ entry.strings := by
  refine ⟨rfl, rfl, rfl, ?_⟩
  decide

/-- C7 amended: every terminal drop is logged with the error, the
collection name and the task name (plus the fixed flow marker), but not
the queue key: the pushed closure, and hence its logging, is identical
for every queue key. -/
theorem terminal_drop_log_contents (c tn : String) (e : GoErr)
    (h : wrapsTerminal e = true) :
    (∃ msg, (HandleRetryError c (some e) tn).logs = [⟨msg, e, c, tn, "async"⟩])
      ∧ ∀ qk qk' op (f : TaskBody),
          (AsyncCollection.push c qk tn op f).body
            = (AsyncCollection.push c qk' tn op f).body := by
  refine ⟨?_, fun qk qk' op f => rfl⟩
  unfold wrapsTerminal terminalSentinels at h
  simp only [List.any_cons, List.any_nil, Bool.or_false, Bool.or_eq_true] at h
  unfold HandleRetryError
  by_cases h1 : errorsIs e .errNotFound = true
  · exact ⟨"document not found", by simp [h1]⟩
  · by_cases h2 : errorsIs e .errDuplicate = true
    · exact ⟨"duplicate", by simp [h1, h2]⟩
    · have h3 : (errorsIs e .errInvalidArgument || errorsIs e .errBadValue ||
          errorsIs e .errIndexNotFound || errorsIs e .errFailedToParse ||
          errorsIs e .errTypeMismatch || errorsIs e .errIllegalOperation) = true := by
        rcases h with h | h | h | h | h | h | h | h <;> simp_all
      exact ⟨"invalid argument", by simp [h1, h2, h3]⟩

/-- C7 witness: concrete instance of the amended claim for a duplicate
error on collection `users` and task `t`. -/
theorem terminal_drop_log_contents_witness :
    wrapsTerminal (GoErr.base .errDuplicate) = true
      ∧ ∃ msg, (HandleRetryError "users" (some (.base .errDuplicate)) "t").logs
          = [⟨msg, .base .errDuplicate, "users", "t", "async"⟩] :=
  ⟨rfl, (terminal_drop_log_contents "users" "t" (.base .errDuplicate) rfl).1⟩

/-- C9: the task name handed to the queue is never empty: an empty
task name is replaced by `collection_opName` in `AsyncCollection.push`,
by `database_task` in `AsyncDatabase.WithTask`, and by
`database_transaction` in `AsyncDatabase.WithTransaction`, and a
non-empty task name is kept. -/
theorem task_name_resolution (collName dbName queueKey taskName opName : String)
    (f fn : TaskBody) :
    (AsyncCollection.push collName queueKey "" opName f).taskName
        = collName ++ "_" ++ opName
      ∧ (AsyncDatabase.WithTask dbName queueKey "" fn).taskName = dbName ++ "_task"
      ∧ (AsyncDatabase.WithTransaction dbName queueKey "" fn).taskName
          = dbName ++ "_transaction"
      ∧ (AsyncCollection.push collName queueKey taskName opName f).taskName ≠ ""
      ∧ (AsyncDatabase.WithTask dbName queueKey taskName fn).taskName ≠ ""
      ∧ (AsyncDatabase.WithTransaction dbName queueKey taskName fn).taskName ≠ "" := by
  refine ⟨rfl, rfl, rfl, ?_, ?_, ?_⟩
  · show (if taskName = "" then collName ++ "_" ++ opName else taskName) ≠ ""
    split_ifs with h
    · exact append_underscore_ne_empty collName opName
    · exact h
  · show (if taskName = "" then dbName ++ "_task" else taskName) ≠ ""
    split_ifs with h
    · intro hc
      have hlen := congrArg String.length hc
      simp [String.length_append] at hlen
      exact absurd hlen.2 (by decide)
    · exact h
  · show (if taskName = "" then dbName ++ "_transaction" else taskName) ≠ ""
    split_ifs with h
    · intro hc
      have hlen := congrArg String.length hc
      simp [String.length_append] at hlen
      exact absurd hlen.2 (by decide)
    · exact h

/-- C8: every `QueueCollection` operation performs exactly the push of
the corresponding `AsyncCollection` operation called with the bound
queue key and an empty task name, for all twelve operations and all
arguments. -/
theorem queueCollection_delegates {Doc Flt Mdl : Type}
    (insertBody insertManyBody : List Doc → TaskBody)
    (upsertBody replaceOneBody : Doc → Flt → TaskBody)
    (setFieldsBody updateOneBody updateManyBody : Flt → Flt → TaskBody)
    (updateOneFromDiffBody : Flt → Doc → TaskBody)
    (deleteFieldsBody : Flt → List String → TaskBody)
    (deleteOneBody deleteManyBody : Flt → TaskBody)
    (bulkWriteBody : List Mdl → Bool → TaskBody)
    (qc : QueueCollection) (records : List Doc) (record : Doc)
    (filter update : Flt) (diff : Doc) (fields : List String)
    (models : List Mdl) (isOrdered : Bool) :
    QueueCollection.Insert insertBody qc records
        = AsyncCollection.Insert insertBody qc.collName qc.name "" records
      ∧ QueueCollection.InsertMany insertManyBody qc records
          = AsyncCollection.InsertMany insertManyBody qc.collName qc.name "" records
      ∧ QueueCollection.Upsert upsertBody qc record filter
          = AsyncCollection.Upsert upsertBody qc.collName qc.name "" record filter
      ∧ QueueCollection.ReplaceOne replaceOneBody qc record filter
          = AsyncCollection.ReplaceOne replaceOneBody qc.collName qc.name "" record filter
      ∧ QueueCollection.SetFields setFieldsBody qc filter update
          = AsyncCollection.SetFields setFieldsBody qc.collName qc.name "" filter update
      ∧ QueueCollection.UpdateOne updateOneBody qc filter update
          = AsyncCollection.UpdateOne updateOneBody qc.collName qc.name "" filter update
      ∧ QueueCollection.UpdateMany updateManyBody qc filter update
          = AsyncCollection.UpdateMany updateManyBody qc.collName qc.name "" filter update
      ∧ QueueCollection.UpdateOneFromDiff updateOneFromDiffBody qc filter diff
          = AsyncCollection.UpdateOneFromDiff updateOneFromDiffBody qc.collName qc.name "" filter diff
      ∧ QueueCollection.DeleteFields deleteFieldsBody qc filter fields
          = AsyncCollection.DeleteFields deleteFieldsBody qc.collName qc.name "" filter fields
      ∧ QueueCollection.DeleteOne deleteOneBody qc filter
          = AsyncCollection.DeleteOne deleteOneBody qc.collName qc.name "" filter
      ∧ QueueCollection.DeleteMany deleteManyBody qc filter
          = AsyncCollection.DeleteMany deleteManyBody qc.collName qc.name "" filter
      ∧ QueueCollection.BulkWrite bulkWriteBody qc models isOrdered
          = AsyncCollection.BulkWrite bulkWriteBody qc.collName qc.name "" models isOrdered :=
  ⟨rfl, rfl, rfl, rfl, rfl, rfl, rfl, rfl, rfl, rfl, rfl, rfl⟩

/-- C10 counterexample: the empty string is an accepted queueKey, and
two pushes with queueKey `""` through the handles for collections
`users` and `orders` of the same AsyncDatabase land in distinct
partitions `(queue, "users")` and `(queue, "orders")`, because `push`
substitutes each handle's own collection name for the empty key — the
claim's "same partition" fails for this pair. -/
theorem empty_key_pushes_distinct_partitions :
    (⟨"users", 5⟩ : ACHandle) ∈ (Client.asyncDatabase "db" 5).handles ["users", "orders"]
      ∧ (⟨"orders", 5⟩ : ACHandle) ∈ (Client.asyncDatabase "db" 5).handles ["users", "orders"]
      ∧ (ACHandle.mk "users" 5).pushPartition "" = (5, "users")
      ∧ (ACHandle.mk "orders" 5).pushPartition "" = (5, "orders")
      ∧ (ACHandle.mk "users" 5).pushPartition ""
          ≠ (ACHandle.mk "orders" 5).pushPartition "" := by
  refine ⟨by decide, by decide, rfl, rfl, by decide⟩

/-- C10 amended: every collection handle obtained from the same
AsyncDatabase (built by `Client.AsyncDatabase` with a fresh queue and
empty cache) shares that database's single queue instance, as does
every QueueCollection derived from such a handle; two pushes under the
same non-empty queue key through any two such handles land in the same
partition of the same queue, and two tasks pushed in order to that
shared partition serialize: the first begins and completes before the
second begins.  (Pushes with an empty queue key default to each
handle's own collection-name partition instead.) -/
theorem shared_queue_same_key_serialization (dbName : String) (qid : Nat)
    (names : List String) (qk qn : String) (hqk : qk ≠ "") (h1 h2 : ACHandle)
    (hm1 : h1 ∈ (Client.asyncDatabase dbName qid).handles names)
    (hm2 : h2 ∈ (Client.asyncDatabase dbName qid).handles names) :
    h1.queueId = qid ∧ h2.queueId = qid
      ∧ h1.pushPartition qk = h2.pushPartition qk
      ∧ (h1.mkQueueCollection qn).ac.queueId = qid
      ∧ (h1.mkQueueCollection qk).pushPartition = h1.pushPartition qk
      ∧ ∀ (s0 : Sched) (a b : Nat) (s' : Sched),
          s0.Fresh a → (s0.pushTask qk a).Fresh b →
          SchedReaches ((s0.pushTask qk a).pushTask qk b) s' →
          Ev.started b ∈ s'.trace →
          ∃ u v, s'.trace = u ++ Ev.started b :: v
            ∧ Ev.started a ∈ u ∧ Ev.finished a ∈ u := by
  have hshare : (Client.asyncDatabase dbName qid).CollsShareQueue := by
    intro p hp
    simp [Client.asyncDatabase] at hp
  have hq1 := handles_queueId _ hshare names h1 hm1
  have hq2 := handles_queueId _ hshare names h2 hm2
  refine ⟨hq1, hq2, ?_, hq1, rfl,
    fun s0 a b s' ha hb hreach hstart => sched_two_pushes_fifo s0 qk a b ha hb s' hreach hstart⟩
  unfold ACHandle.pushPartition
  rw [if_neg hqk, if_neg hqk, hq1, hq2]

/-- C10 witness: two handles for collections `users` and `orders` of
the same AsyncDatabase push key `k` into the same partition, and a
concrete two-task execution on that partition serializes. -/
theorem shared_queue_same_key_serialization_witness :
    ("k" : String) ≠ ""
      ∧ (⟨"users", 5⟩ : ACHandle) ∈ (Client.asyncDatabase "db" 5).handles ["users", "orders"]
      ∧ (⟨"orders", 5⟩ : ACHandle) ∈ (Client.asyncDatabase "db" 5).handles ["users", "orders"]
      ∧ (ACHandle.mk "users" 5).pushPartition "k"
          = (ACHandle.mk "orders" 5).pushPartition "k"
      ∧ ∃ u v, ([Ev.started 0, Ev.finished 0, Ev.started 1] : List Ev)
          = u ++ Ev.started 1 :: v ∧ Ev.started 0 ∈ u ∧ Ev.finished 0 ∈ u := by
  have hmain := shared_queue_same_key_serialization "db" 5 ["users", "orders"] "k" "q"
    (by decide) ⟨"users", 5⟩ ⟨"orders", 5⟩ (by decide) (by decide)
  refine ⟨by decide, by decide, by decide, hmain.2.2.1, ?_⟩
  have hf0 : (⟨fun _ => [], fun _ => none, []⟩ : Sched).Fresh 0 := by
    refine ⟨fun k => ⟨by simp, by simp⟩, by simp, by simp⟩
  have hf1 : ((⟨fun _ => [], fun _ => none, []⟩ : Sched).pushTask "k" 0).Fresh 1 := by
    refine ⟨fun k => ⟨?_, by simp [Sched.pushTask]⟩, by simp [Sched.pushTask],
      by simp [Sched.pushTask]⟩
    by_cases h : k = "k"
    · subst h
      simp [Sched.pushTask, Function.update_same]
    · simp [Sched.pushTask, Function.update_noteq h]
  have hreach := Relation.ReflTransGen.tail (Relation.ReflTransGen.tail
    (Relation.ReflTransGen.tail (Relation.ReflTransGen.refl)
      (SchedStep.claim
        (((⟨fun _ => [], fun _ => none, []⟩ : Sched).pushTask "k" 0).pushTask "k" 1)
        "k" 0 [1] rfl (by simp [Sched.pushTask, Function.update_same])))
    (SchedStep.finish _ "k" 0 (by simp [Function.update_same])))
    (SchedStep.claim _ "k" 1 [] (by simp [Function.update_same])
      (by simp [Function.update_same]))
  exact hmain.2.2.2.2.2 _ 0 1 _ hf0 hf1 hreach (by simp [Sched.pushTask])

end Mongox
